import Mathlib

/-!
Shallow embedding of the Intcode virtual machine from
`src/intcode/src/lib.rs`.  The Rust `IntcodeMachine` struct becomes a Lean
structure; every method becomes a function on that structure.  Rust panics
(out-of-bounds indexing, unknown opcodes) are modelled by `Option`: a method
that would panic returns `none`.  Signed 64-bit values are modelled as
unbounded `Int` (the spec performs no overflow checks); the Rust `as usize`
cast wraps modulo `2 ^ 64`, which we model with `Int.emod`.  Rust's `%` and
`/` on `i64` truncate toward zero, so instruction decoding uses `Int.tmod`
and `Int.tdiv`.  The run loop is given explicit fuel (number of executed
instructions); exhausted fuel also yields `none`.
-/

inductive ParameterMode where
  | Positional
  | Immediate
  | Relative
deriving Repr, DecidableEq

inductive MachineStatus where
  | Run
  | Yield
  | Halt
deriving Repr, DecidableEq

structure IntcodeMachine where
  tape : List Int
  position : Nat
  relative_base : Int
  input : List Int
  output : List Int
  status : MachineStatus
deriving Repr, DecidableEq

namespace IntcodeMachine

/-- Rust `as usize` on an `i64`: wraps modulo `2 ^ 64`. -/
def intToUsize (v : Int) : Nat :=
  (v % (2 ^ 64 : Int)).toNat

/-- Rust `Vec::resize(n, 0)`: sets the length to exactly `n`, zero-filling
new cells (and truncating when `n` is smaller). -/
def resize (t : List Int) (n : Nat) : List Int :=
  if n ≤ t.length then t.take n else t ++ List.replicate (n - t.length) 0

def new (tape : List Int) : IntcodeMachine :=
  { tape := tape
    position := 0
    relative_base := 0
    input := []
    output := []
    status := MachineStatus.Run }

def with_zeroth (m : IntcodeMachine) (value : Int) : Option IntcodeMachine :=
  if 0 < m.tape.length then some { m with tape := m.tape.set 0 value } else none

def with_init (m : IntcodeMachine) (noun verb : Int) : Option IntcodeMachine :=
  if 1 < m.tape.length then
    let t1 := m.tape.set 1 noun
    if 2 < t1.length then some { m with tape := t1.set 2 verb } else none
  else none

def add_input (m : IntcodeMachine) (i : Int) : IntcodeMachine :=
  if m.status ≠ MachineStatus.Halt then
    { m with status := MachineStatus.Run, input := m.input ++ [i] }
  else m

def with_input (m : IntcodeMachine) (i : Int) : IntcodeMachine :=
  m.add_input i

def parse_mode (i : Int) : ParameterMode :=
  if i = 1 then ParameterMode.Immediate
  else if i = 2 then ParameterMode.Relative
  else ParameterMode.Positional

def fetch1mode (m : IntcodeMachine) : Option ParameterMode :=
  (m.tape[m.position]?).map fun w => parse_mode ((w.tdiv 100).tmod 10)

def fetch2modes (m : IntcodeMachine) : Option (ParameterMode × ParameterMode) :=
  match m.fetch1mode, m.tape[m.position]? with
  | some mode1, some w => some (parse_mode ((w.tdiv 1000).tmod 10), mode1)
  | _, _ => none

def fetch3modes (m : IntcodeMachine) :
    Option (ParameterMode × ParameterMode × ParameterMode) :=
  match m.fetch2modes, m.tape[m.position]? with
  | some (mode2, mode1), some w =>
      some (parse_mode ((w.tdiv 10000).tmod 10), mode2, mode1)
  | _, _ => none

/-- The effective address computed by `fetch_arg` after it has advanced the
pointer: the `pointer` local of the Rust code.  `none` when the indexing
`self.tape[self.position]` would panic. -/
def resolvePtr (m : IntcodeMachine) (mode : ParameterMode) : Option Nat :=
  match mode with
  | ParameterMode.Positional =>
      (m.tape[m.position + 1]?).map fun v => intToUsize v
  | ParameterMode.Immediate => some (m.position + 1)
  | ParameterMode.Relative =>
      (m.tape[m.position + 1]?).map fun v => intToUsize (m.relative_base + v)

def fetch_arg (m : IntcodeMachine) (mode : ParameterMode) :
    Option (Int × IntcodeMachine) :=
  (m.resolvePtr mode).bind fun pointer =>
    let tape :=
      if pointer ≥ m.tape.length then resize m.tape (pointer * 2) else m.tape
    (tape[pointer]?).map fun v =>
      (v, { m with position := m.position + 1, tape := tape })

def fetch_dest (m : IntcodeMachine) (mode : ParameterMode) :
    Option (Nat × IntcodeMachine) :=
  match mode with
  | ParameterMode.Positional | ParameterMode.Immediate =>
      (m.fetch_arg ParameterMode.Immediate).map fun p =>
        (intToUsize p.1, p.2)
  | ParameterMode.Relative =>
      (m.fetch_arg ParameterMode.Immediate).map fun p =>
        (intToUsize (p.2.relative_base + p.1), p.2)

def store (m : IntcodeMachine) (dest : Nat) (value : Int) :
    Option IntcodeMachine :=
  let tape :=
    if dest ≥ m.tape.length then resize m.tape (dest * 2) else m.tape
  if dest < tape.length then some { m with tape := tape.set dest value }
  else none

/-- Add instruction, opcode 1. -/
def add (m : IntcodeMachine) : Option IntcodeMachine := do
  let (mode3, mode2, mode1) ← m.fetch3modes
  let (a, m) ← m.fetch_arg mode1
  let (b, m) ← m.fetch_arg mode2
  let (dest, m) ← m.fetch_dest mode3
  let m ← m.store dest (a + b)
  pure { m with position := m.position + 1 }

/-- Multiply instruction, opcode 2. -/
def mul (m : IntcodeMachine) : Option IntcodeMachine := do
  let (mode3, mode2, mode1) ← m.fetch3modes
  let (a, m) ← m.fetch_arg mode1
  let (b, m) ← m.fetch_arg mode2
  let (dest, m) ← m.fetch_dest mode3
  let m ← m.store dest (a * b)
  pure { m with position := m.position + 1 }

/-- Store instruction, opcode 3. -/
def st (m : IntcodeMachine) : Option IntcodeMachine := do
  let mode ← m.fetch1mode
  let (dest, m) ← m.fetch_dest mode
  match m.input with
  | i :: rest =>
      let m ← { m with input := rest }.store dest i
      pure { m with position := m.position + 1 }
  | [] =>
      pure { m with status := MachineStatus.Yield, position := m.position - 1 }

/-- Load instruction, opcode 4. -/
def ld (m : IntcodeMachine) : Option IntcodeMachine := do
  let mode ← m.fetch1mode
  let (v, m) ← m.fetch_arg mode
  pure { m with output := m.output ++ [v], position := m.position + 1 }

/-- Jump if not zero instruction, opcode 5. -/
def jnz (m : IntcodeMachine) : Option IntcodeMachine := do
  let (mode2, mode1) ← m.fetch2modes
  let (a, m) ← m.fetch_arg mode1
  let (b, m) ← m.fetch_arg mode2
  if a ≠ 0 then pure { m with position := intToUsize b }
  else pure { m with position := m.position + 1 }

/-- Jump if zero instruction, opcode 6. -/
def jz (m : IntcodeMachine) : Option IntcodeMachine := do
  let (mode2, mode1) ← m.fetch2modes
  let (a, m) ← m.fetch_arg mode1
  let (b, m) ← m.fetch_arg mode2
  if a = 0 then pure { m with position := intToUsize b }
  else pure { m with position := m.position + 1 }

/-- Test if less than instruction, opcode 7. -/
def tlt (m : IntcodeMachine) : Option IntcodeMachine := do
  let (mode3, mode2, mode1) ← m.fetch3modes
  let (a, m) ← m.fetch_arg mode1
  let (b, m) ← m.fetch_arg mode2
  let (dest, m) ← m.fetch_dest mode3
  let m ← m.store dest (if a < b then 1 else 0)
  pure { m with position := m.position + 1 }

/-- Test if equals instruction, opcode 8. -/
def teq (m : IntcodeMachine) : Option IntcodeMachine := do
  let (mode3, mode2, mode1) ← m.fetch3modes
  let (a, m) ← m.fetch_arg mode1
  let (b, m) ← m.fetch_arg mode2
  let (dest, m) ← m.fetch_dest mode3
  let m ← m.store dest (if a = b then 1 else 0)
  pure { m with position := m.position + 1 }

/-- Relative base adjustment instruction, opcode 9. -/
def rel (m : IntcodeMachine) : Option IntcodeMachine := do
  let mode ← m.fetch1mode
  let (base, m) ← m.fetch_arg mode
  pure { m with relative_base := m.relative_base + base,
                position := m.position + 1 }

/-- Halt instruction, opcode 99. -/
def halt (m : IntcodeMachine) : IntcodeMachine :=
  { m with status := MachineStatus.Halt }

def halted (m : IntcodeMachine) : Bool :=
  m.status = MachineStatus.Halt

def yielded (m : IntcodeMachine) : Bool :=
  m.status = MachineStatus.Yield

/-- One iteration of the body of the `loop` in `run_for_target`: read the
opcode at the pointer and dispatch.  An unknown opcode is the Rust
`panic!`, i.e. `none`. -/
def runStep (m : IntcodeMachine) : Option IntcodeMachine :=
  (m.tape[m.position]?).bind fun w =>
    let opcode := w.tmod 100
    if opcode = 1 then m.add
    else if opcode = 2 then m.mul
    else if opcode = 3 then m.st
    else if opcode = 4 then m.ld
    else if opcode = 5 then m.jnz
    else if opcode = 6 then m.jz
    else if opcode = 7 then m.tlt
    else if opcode = 8 then m.teq
    else if opcode = 9 then m.rel
    else if opcode = 99 then some m.halt
    else none

/-- The `loop` of `run_for_target`, with fuel counting loop iterations. -/
def runLoop : Nat → IntcodeMachine → Option IntcodeMachine
  | 0, _ => none
  | fuel + 1, m =>
      (runStep m).bind fun m1 =>
        if m1.status = MachineStatus.Halt ∨ m1.status = MachineStatus.Yield
        then some m1
        else runLoop fuel m1

def run_for_target (fuel : Nat) (m : IntcodeMachine) (target : Nat) :
    Option (Int × IntcodeMachine) :=
  let m0 := { m with status := MachineStatus.Run, output := [] }
  (runLoop fuel m0).bind fun m1 =>
    (m1.tape[target]?).map fun v => (v, m1)

def run (fuel : Nat) (m : IntcodeMachine) : Option (List Int × IntcodeMachine) :=
  (run_for_target fuel m 0).map fun p => (p.2.output, p.2)

/-! ### Helper lemmas about `resize` -/

theorem length_resize (t : List Int) (n : Nat) (h : t.length ≤ n) :
    (resize t n).length = n := by
  unfold resize
  split
  · simp; omega
  · simp; omega

theorem getElem?_resize_lt (t : List Int) (n i : Nat) (hi : i < t.length)
    (hn : t.length ≤ n) : (resize t n)[i]? = t[i]? := by
  unfold resize
  split
  · have : t.take n = t := List.take_of_length_le (by omega)
    rw [this]
  · rw [List.getElem?_append, if_pos hi]

theorem getElem?_resize_new (t : List Int) (n i : Nat) (hi : t.length ≤ i)
    (hn : i < n) : (resize t n)[i]? = some 0 := by
  unfold resize
  split
  · omega
  · rw [List.getElem?_append_right hi, List.getElem?_replicate, if_pos (by omega)]

/-! ### Behaviour of `fetch_arg` in Immediate mode

In `fetch_dest` (and hence in every write-target resolution, in particular
in the input instruction `st`) the underlying `fetch_arg` call is always in
Immediate mode, where the resolved pointer is `position + 1 ≥ 1`, so after
the conditional resize the access is always in bounds. -/

theorem fetch_arg_imm (m : IntcodeMachine) :
    ∃ v t, m.fetch_arg ParameterMode.Immediate =
        some (v, { m with position := m.position + 1, tape := t }) ∧
      m.tape.length ≤ t.length ∧
      m.position + 1 < t.length ∧
      (∀ i, i < m.tape.length → t[i]? = m.tape[i]?) ∧
      t[m.position + 1]? = some v := by
  unfold fetch_arg resolvePtr
  simp only [Option.some_bind]
  by_cases hge : m.position + 1 ≥ m.tape.length
  · rw [if_pos hge]
    have hlen : (resize m.tape ((m.position + 1) * 2)).length =
        (m.position + 1) * 2 := length_resize _ _ (by omega)
    have hv : (resize m.tape ((m.position + 1) * 2))[m.position + 1]? =
        some 0 := getElem?_resize_new _ _ _ hge (by omega)
    refine ⟨0, resize m.tape ((m.position + 1) * 2), ?_, by omega, by omega,
      ?_, hv⟩
    · rw [hv]; rfl
    · intro i hi
      exact getElem?_resize_lt _ _ _ hi (by omega)
  · rw [if_neg hge]
    push_neg at hge
    have hv : m.tape[m.position + 1]? = some (m.tape[m.position + 1]) :=
      List.getElem?_eq_getElem hge
    refine ⟨m.tape[m.position + 1], m.tape, ?_, le_refl _, hge,
      fun i _ => rfl, hv⟩
    rw [hv]; rfl

/-- `fetch_dest` always succeeds (in every mode), advances the pointer by
exactly one position, and at most grows the tape. -/
theorem fetch_dest_spec (m : IntcodeMachine) (mode : ParameterMode) :
    ∃ dest t, m.fetch_dest mode =
        some (dest, { m with position := m.position + 1, tape := t }) ∧
      m.tape.length ≤ t.length ∧
      m.position + 1 < t.length ∧
      (∀ i, i < m.tape.length → t[i]? = m.tape[i]?) := by
  obtain ⟨v, t, harg, hle, hpos, hpres, hv⟩ := fetch_arg_imm m
  cases mode with
  | Positional =>
      exact ⟨intToUsize v, t, by rw [fetch_dest, harg]; rfl, hle, hpos, hpres⟩
  | Immediate =>
      exact ⟨intToUsize v, t, by rw [fetch_dest, harg]; rfl, hle, hpos, hpres⟩
  | Relative =>
      exact ⟨intToUsize (m.relative_base + v), t,
        by rw [fetch_dest, harg]; rfl, hle, hpos, hpres⟩

/-- `store` succeeds whenever the tape is non-empty or the destination is
positive, writes the value at the destination, and changes no other cell
below the original length. -/
theorem store_spec (m : IntcodeMachine) (dest : Nat) (v : Int)
    (h : 1 ≤ dest ∨ m.tape ≠ []) :
    ∃ t, m.store dest v = some { m with tape := t } ∧
      t[dest]? = some v ∧
      m.tape.length ≤ t.length ∧
      (∀ i, i < m.tape.length → i ≠ dest → t[i]? = m.tape[i]?) := by
  have hne : 1 ≤ dest ∨ 1 ≤ m.tape.length := by
    rcases h with h | h
    · exact Or.inl h
    · exact Or.inr (by cases hm : m.tape with
        | nil => exact absurd hm h
        | cons a l => simp [hm])
  unfold store
  by_cases hge : dest ≥ m.tape.length
  · rw [if_pos hge]
    have hd1 : 1 ≤ dest := by omega
    have hlen : (resize m.tape (dest * 2)).length = dest * 2 :=
      length_resize _ _ (by omega)
    rw [if_pos (by omega)]
    refine ⟨(resize m.tape (dest * 2)).set dest v, rfl, ?_, by simp [hlen]; omega,
      ?_⟩
    · rw [List.getElem?_set_self (by omega)]
    · intro i hi hne'
      rw [List.getElem?_set_ne (fun he => hne' he.symm)]
      exact getElem?_resize_lt _ _ _ hi (by omega)
  · rw [if_neg hge]
    push_neg at hge
    rw [if_pos hge]
    refine ⟨m.tape.set dest v, rfl, ?_, by simp, ?_⟩
    · rw [List.getElem?_set_self hge]
    · intro i hi hne'
      rw [List.getElem?_set_ne (fun he => hne' he.symm)]

/-! ### State-preservation lemmas for the fetch/store combinators -/

theorem fetch_arg_state (m : IntcodeMachine) (mode : ParameterMode) (v : Int)
    (m' : IntcodeMachine) (h : m.fetch_arg mode = some (v, m')) :
    m'.status = m.status ∧ m'.input = m.input ∧ m'.output = m.output ∧
      m'.relative_base = m.relative_base ∧ m'.position = m.position + 1 := by
  unfold fetch_arg at h
  cases hres : m.resolvePtr mode with
  | none => rw [hres] at h; simp at h
  | some p =>
      rw [hres] at h
      simp only [Option.some_bind, Option.map_eq_some', Prod.mk.injEq] at h
      obtain ⟨w, _, _, hm⟩ := h
      subst hm
      exact ⟨rfl, rfl, rfl, rfl, rfl⟩

theorem fetch_dest_state (m : IntcodeMachine) (mode : ParameterMode)
    (dest : Nat) (m' : IntcodeMachine)
    (h : m.fetch_dest mode = some (dest, m')) :
    m'.status = m.status ∧ m'.input = m.input ∧ m'.output = m.output ∧
      m'.relative_base = m.relative_base ∧ m'.position = m.position + 1 := by
  obtain ⟨v, t, harg, _, _, _, _⟩ := fetch_arg_imm m
  cases mode <;>
    · rw [fetch_dest, harg, Option.map_some'] at h
      obtain ⟨-, hm⟩ := Prod.mk.injEq .. |>.mp (Option.some.injEq .. |>.mp h)
      subst hm
      exact ⟨rfl, rfl, rfl, rfl, rfl⟩

theorem store_state (m : IntcodeMachine) (dest : Nat) (v : Int)
    (m' : IntcodeMachine) (h : m.store dest v = some m') :
    m'.status = m.status ∧ m'.input = m.input ∧ m'.output = m.output ∧
      m'.relative_base = m.relative_base ∧ m'.position = m.position := by
  simp only [store] at h
  split_ifs at h with h1 h2 h3 <;>
    · injection h with h
      subst h
      exact ⟨rfl, rfl, rfl, rfl, rfl⟩

/-! ### Status-preservation lemmas for the individual instructions

Every instruction except `st` and `halt` leaves the run status unchanged;
`st` can additionally set it to `Yield`.  Together these show that when the
run loop stops with status `Halt`, the instruction just executed was the
halt instruction, so the pointer still addresses a word whose opcode
is 99. -/

theorem add_status (m m' : IntcodeMachine) (h : m.add = some m') :
    m'.status = m.status := by
  unfold add at h
  simp only [bind, Option.bind_eq_some, pure] at h
  obtain ⟨⟨mode3, mode2, mode1⟩, h3, ⟨⟨a, m1⟩, ha, ⟨⟨b, m2⟩, hb,
    ⟨⟨dest, m3⟩, hd, ⟨m4, hst, hfin⟩⟩⟩⟩⟩ := h
  injection hfin with hfin
  subst hfin
  have e1 := (fetch_arg_state _ _ _ _ ha).1
  have e2 := (fetch_arg_state _ _ _ _ hb).1
  have e3 := (fetch_dest_state _ _ _ _ hd).1
  have e4 := (store_state _ _ _ _ hst).1
  simp only []
  rw [e4, e3, e2, e1]

theorem mul_status (m m' : IntcodeMachine) (h : m.mul = some m') :
    m'.status = m.status := by
  unfold mul at h
  simp only [bind, Option.bind_eq_some, pure] at h
  obtain ⟨⟨mode3, mode2, mode1⟩, h3, ⟨⟨a, m1⟩, ha, ⟨⟨b, m2⟩, hb,
    ⟨⟨dest, m3⟩, hd, ⟨m4, hst, hfin⟩⟩⟩⟩⟩ := h
  injection hfin with hfin
  subst hfin
  have e1 := (fetch_arg_state _ _ _ _ ha).1
  have e2 := (fetch_arg_state _ _ _ _ hb).1
  have e3 := (fetch_dest_state _ _ _ _ hd).1
  have e4 := (store_state _ _ _ _ hst).1
  simp only []
  rw [e4, e3, e2, e1]

theorem tlt_status (m m' : IntcodeMachine) (h : m.tlt = some m') :
    m'.status = m.status := by
  unfold tlt at h
  simp only [bind, Option.bind_eq_some, pure] at h
  obtain ⟨⟨mode3, mode2, mode1⟩, h3, ⟨⟨a, m1⟩, ha, ⟨⟨b, m2⟩, hb,
    ⟨⟨dest, m3⟩, hd, ⟨m4, hst, hfin⟩⟩⟩⟩⟩ := h
  injection hfin with hfin
  subst hfin
  have e1 := (fetch_arg_state _ _ _ _ ha).1
  have e2 := (fetch_arg_state _ _ _ _ hb).1
  have e3 := (fetch_dest_state _ _ _ _ hd).1
  have e4 := (store_state _ _ _ _ hst).1
  simp only []
  rw [e4, e3, e2, e1]

theorem teq_status (m m' : IntcodeMachine) (h : m.teq = some m') :
    m'.status = m.status := by
  unfold teq at h
  simp only [bind, Option.bind_eq_some, pure] at h
  obtain ⟨⟨mode3, mode2, mode1⟩, h3, ⟨⟨a, m1⟩, ha, ⟨⟨b, m2⟩, hb,
    ⟨⟨dest, m3⟩, hd, ⟨m4, hst, hfin⟩⟩⟩⟩⟩ := h
  injection hfin with hfin
  subst hfin
  have e1 := (fetch_arg_state _ _ _ _ ha).1
  have e2 := (fetch_arg_state _ _ _ _ hb).1
  have e3 := (fetch_dest_state _ _ _ _ hd).1
  have e4 := (store_state _ _ _ _ hst).1
  simp only []
  rw [e4, e3, e2, e1]

theorem ld_status (m m' : IntcodeMachine) (h : m.ld = some m') :
    m'.status = m.status := by
  unfold ld at h
  simp only [bind, Option.bind_eq_some, pure] at h
  obtain ⟨mode, h1, ⟨⟨v, m1⟩, ha, hfin⟩⟩ := h
  injection hfin with hfin
  subst hfin
  exact (fetch_arg_state _ _ _ _ ha).1

theorem rel_status (m m' : IntcodeMachine) (h : m.rel = some m') :
    m'.status = m.status := by
  unfold rel at h
  simp only [bind, Option.bind_eq_some, pure] at h
  obtain ⟨mode, h1, ⟨⟨v, m1⟩, ha, hfin⟩⟩ := h
  injection hfin with hfin
  subst hfin
  exact (fetch_arg_state _ _ _ _ ha).1

theorem jnz_status (m m' : IntcodeMachine) (h : m.jnz = some m') :
    m'.status = m.status := by
  unfold jnz at h
  simp only [bind, Option.bind_eq_some, pure] at h
  obtain ⟨⟨mode2, mode1⟩, h2, ⟨⟨a, m1⟩, ha, ⟨⟨b, m2⟩, hb, hfin⟩⟩⟩ := h
  have e1 := (fetch_arg_state _ _ _ _ ha).1
  have e2 := (fetch_arg_state _ _ _ _ hb).1
  split_ifs at hfin <;>
    · injection hfin with hfin
      subst hfin
      simp only []
      rw [e2, e1]

theorem jz_status (m m' : IntcodeMachine) (h : m.jz = some m') :
    m'.status = m.status := by
  unfold jz at h
  simp only [bind, Option.bind_eq_some, pure] at h
  obtain ⟨⟨mode2, mode1⟩, h2, ⟨⟨a, m1⟩, ha, ⟨⟨b, m2⟩, hb, hfin⟩⟩⟩ := h
  have e1 := (fetch_arg_state _ _ _ _ ha).1
  have e2 := (fetch_arg_state _ _ _ _ hb).1
  split_ifs at hfin <;>
    · injection hfin with hfin
      subst hfin
      simp only []
      rw [e2, e1]

theorem st_status (m m' : IntcodeMachine) (h : m.st = some m') :
    m'.status = m.status ∨ m'.status = MachineStatus.Yield := by
  unfold st at h
  simp only [bind, Option.bind_eq_some, pure] at h
  obtain ⟨mode, h1, ⟨⟨dest, m1⟩, hd, hfin⟩⟩ := h
  cases hinp : m1.input with
  | nil =>
      rw [hinp] at hfin
      injection hfin with hfin
      subst hfin
      exact Or.inr rfl
  | cons i rest =>
      rw [hinp] at hfin
      simp only [Option.bind_eq_some] at hfin
      obtain ⟨m2, hst, hfin⟩ := hfin
      injection hfin with hfin
      subst hfin
      left
      have e1 := (store_state _ _ _ _ hst).1
      have e2 := (fetch_dest_state _ _ _ _ hd).1
      simp only []
      rw [e1]
      exact e2

/-- If the run loop's dispatch takes a machine that was not halted to a
halted machine, then the instruction just executed was the halt
instruction: the tape and pointer are unchanged and the pointer addresses
a word whose opcode is 99. -/
theorem runStep_halt (m m' : IntcodeMachine)
    (hr : m.status ≠ MachineStatus.Halt) (h : runStep m = some m')
    (hh : m'.status = MachineStatus.Halt) :
    m'.tape = m.tape ∧ m'.position = m.position ∧
      ∃ w, m.tape[m.position]? = some w ∧ w.tmod 100 = 99 := by
  simp only [runStep, Option.bind_eq_some] at h
  obtain ⟨w, hw, h⟩ := h
  by_cases h1 : w.tmod 100 = 1
  · rw [if_pos h1] at h
    rw [add_status _ _ h] at hh
    exact absurd hh hr
  rw [if_neg h1] at h
  by_cases h2 : w.tmod 100 = 2
  · rw [if_pos h2] at h
    rw [mul_status _ _ h] at hh
    exact absurd hh hr
  rw [if_neg h2] at h
  by_cases h3 : w.tmod 100 = 3
  · rw [if_pos h3] at h
    rcases st_status _ _ h with hs | hs
    · rw [hs] at hh
      exact absurd hh hr
    · rw [hs] at hh
      exact absurd hh (by decide)
  rw [if_neg h3] at h
  by_cases h4 : w.tmod 100 = 4
  · rw [if_pos h4] at h
    rw [ld_status _ _ h] at hh
    exact absurd hh hr
  rw [if_neg h4] at h
  by_cases h5 : w.tmod 100 = 5
  · rw [if_pos h5] at h
    rw [jnz_status _ _ h] at hh
    exact absurd hh hr
  rw [if_neg h5] at h
  by_cases h6 : w.tmod 100 = 6
  · rw [if_pos h6] at h
    rw [jz_status _ _ h] at hh
    exact absurd hh hr
  rw [if_neg h6] at h
  by_cases h7 : w.tmod 100 = 7
  · rw [if_pos h7] at h
    rw [tlt_status _ _ h] at hh
    exact absurd hh hr
  rw [if_neg h7] at h
  by_cases h8 : w.tmod 100 = 8
  · rw [if_pos h8] at h
    rw [teq_status _ _ h] at hh
    exact absurd hh hr
  rw [if_neg h8] at h
  by_cases h9 : w.tmod 100 = 9
  · rw [if_pos h9] at h
    rw [rel_status _ _ h] at hh
    exact absurd hh hr
  rw [if_neg h9] at h
  by_cases h99 : w.tmod 100 = 99
  · rw [if_pos h99] at h
    injection h with h
    subst h
    exact ⟨rfl, rfl, w, hw, h99⟩
  · rw [if_neg h99] at h
    exact Option.noConfusion h

/-- Whenever the run loop stops with status `Halt`, the final machine's
pointer addresses a word whose opcode is 99 (the halt instruction does not
advance the pointer). -/
theorem runLoop_halt_inv (fuel : Nat) :
    ∀ m m', m.status = MachineStatus.Run → runLoop fuel m = some m' →
      m'.status = MachineStatus.Halt →
      ∃ w, m'.tape[m'.position]? = some w ∧ w.tmod 100 = 99 := by
  induction fuel with
  | zero => exact fun m m' _ h _ => Option.noConfusion h
  | succ fuel ih =>
      intro m m' hr h hh
      rw [runLoop] at h
      obtain ⟨m1, hstep, h⟩ := Option.bind_eq_some.mp h
      by_cases hc : m1.status = MachineStatus.Halt ∨
          m1.status = MachineStatus.Yield
      · rw [if_pos hc] at h
        injection h with h
        subst h
        obtain ⟨htape, hpos, w, hw, h99⟩ :=
          runStep_halt m _ (by rw [hr]; exact (by decide)) hstep hh
        exact ⟨w, by rw [htape, hpos]; exact hw, h99⟩
      · rw [if_neg hc] at h
        push_neg at hc
        have hr1 : m1.status = MachineStatus.Run := by
          cases hs : m1.status
          · rfl
          · exact absurd hs hc.2
          · exact absurd hs hc.1
        exact ih m1 m' hr1 h hh

end IntcodeMachine

open IntcodeMachine

/-! ### Claim theorems -/

/-- C1: a Machine on tape `[3,0,4,0,99]` with an empty input queue ends one
run invocation with status Yielded, an empty output buffer, and no memory
cell changed; after `add_input 1234` a second run invocation ends with
status Halted and output `[1234]`. -/
theorem c1_input_blocking_and_resume :
    ((run 100 (new [3, 0, 4, 0, 99])).map fun p =>
        (p.2.status, p.2.output, p.2.tape)) =
      some (MachineStatus.Yield, [], [3, 0, 4, 0, 99]) ∧
    (((run 100 (new [3, 0, 4, 0, 99])).bind fun p =>
        run 100 (p.2.add_input 1234)).map fun p =>
          (p.2.status, p.2.output)) =
      some (MachineStatus.Halt, [1234]) := by
  decide

/-- C2: executing an input instruction (opcode 3) with an empty input queue
is not a failure: the step succeeds, sets status to Yielded, and leaves the
pointer addressing the opcode word of the same input instruction (it was
advanced by one while resolving the destination and rolled back by one);
with a non-empty queue exactly one value is popped, stored at the resolved
destination, and the pointer advances past the two-word instruction. -/
theorem c2_input_empty_yields_not_fails (m : IntcodeMachine) (w : Int)
    (hw : m.tape[m.position]? = some w) (hop : w.tmod 100 = 3) :
    (m.input = [] →
      ∃ m', runStep m = some m' ∧
        m'.status = MachineStatus.Yield ∧
        m'.position = m.position ∧
        m'.tape[m'.position]? = some w ∧
        m'.input = [] ∧ m'.output = m.output) ∧
    (∀ i rest, m.input = i :: rest →
      ∃ mode dest mD m',
        m.fetch1mode = some mode ∧
        m.fetch_dest mode = some (dest, mD) ∧
        runStep m = some m' ∧
        m'.input = rest ∧
        m'.tape[dest]? = some i ∧
        m'.position = m.position + 2 ∧
        m'.status = m.status) := by
  have hpos : m.position < m.tape.length := (List.getElem?_eq_some.mp hw).1
  have hrs : runStep m = m.st := by
    simp +decide [runStep, hw, hop]
  have hmode : m.fetch1mode = some (parse_mode ((w.tdiv 100).tmod 10)) := by
    simp [fetch1mode, hw]
  obtain ⟨dest, t, hfd, hle, hlt, hpres⟩ :=
    fetch_dest_spec m (parse_mode ((w.tdiv 100).tmod 10))
  constructor
  · intro hinp
    have hst : m.st =
        some { m with tape := t, status := MachineStatus.Yield } := by
      simp only [st, hmode, Option.some_bind, hfd, bind]
      rw [hinp]
      rfl
    refine ⟨{ m with tape := t, status := MachineStatus.Yield },
      by rw [hrs, hst], rfl, rfl, ?_, hinp, rfl⟩
    show t[m.position]? = some w
    rw [hpres _ hpos]
    exact hw
  · intro i rest hinp
    have htne : t ≠ [] := by
      intro he
      rw [he] at hlt
      simp at hlt
    obtain ⟨t2, hstore, hval, hle2, hpres2⟩ :=
      store_spec { m with position := m.position + 1, tape := t, input := rest }
        dest i (Or.inr htne)
    refine ⟨parse_mode ((w.tdiv 100).tmod 10), dest,
      { m with position := m.position + 1, tape := t },
      { m with position := m.position + 2, tape := t2, input := rest },
      hmode, hfd, ?_, rfl, hval, rfl, rfl⟩
    rw [hrs]
    simp only [st, hmode, Option.some_bind, hfd, bind]
    rw [hinp]
    simp only [Option.bind_eq_bind]
    rw [show ({ m with position := m.position + 1, tape := t, input := rest } : IntcodeMachine).store dest i = some { m with position := m.position + 1, tape := t2, input := rest } from hstore]
    rfl

theorem c2_input_empty_yields_not_fails_witness :
    (new [3, 0, 4, 0, 99]).tape[(new [3, 0, 4, 0, 99]).position]? =
        some (3 : Int) ∧
    (3 : Int).tmod 100 = 3 ∧
    ((new [3, 0, 4, 0, 99]).input = [] →
      ∃ m', runStep (new [3, 0, 4, 0, 99]) = some m' ∧
        m'.status = MachineStatus.Yield ∧
        m'.position = (new [3, 0, 4, 0, 99]).position ∧
        m'.tape[m'.position]? = some 3 ∧
        m'.input = [] ∧ m'.output = (new [3, 0, 4, 0, 99]).output) :=
  ⟨rfl, rfl, (c2_input_empty_yields_not_fails (new [3, 0, 4, 0, 99]) 3
      rfl rfl).1⟩

/-- C3 counterexample: a store at resolved address 3 on a tape of
length 3 resizes the tape to exactly 6 = 2 * 3 cells, which is fewer than
the 2 * 3 + 1 = 7 cells the claim requires. -/
theorem c3_growth_policy_counterexample :
    ((new [0, 0, 0]).store 3 7).map (fun m => m.tape.length) = some 6 ∧
    ¬ (2 * 3 + 1 ≤ 6) := by
  decide

/-- C3 (amended): for every fetch or store whose resolved address is at or
beyond the current tape length (and positive), the tape is resized to
exactly `2 * address` elements — not `2 * address + 1` — with all new
cells zero-filled, before the access is performed. -/
theorem c3_growth_policy_exact (m : IntcodeMachine) (mode : ParameterMode)
    (p dest : Nat) (v : Int) :
    (m.resolvePtr mode = some p → m.tape.length ≤ p → 1 ≤ p →
      m.fetch_arg mode =
        some (0, { m with position := m.position + 1, tape := resize m.tape (p * 2) }) ∧
      (resize m.tape (p * 2)).length = 2 * p ∧
      (∀ i, i < m.tape.length → (resize m.tape (p * 2))[i]? = m.tape[i]?) ∧
      (∀ i, m.tape.length ≤ i → i < 2 * p →
        (resize m.tape (p * 2))[i]? = some 0)) ∧
    (m.tape.length ≤ dest → 1 ≤ dest →
      m.store dest v =
        some { m with tape := (resize m.tape (dest * 2)).set dest v } ∧
      (resize m.tape (dest * 2)).length = 2 * dest ∧
      (∀ i, i < m.tape.length → (resize m.tape (dest * 2))[i]? = m.tape[i]?) ∧
      (∀ i, m.tape.length ≤ i → i < 2 * dest →
        (resize m.tape (dest * 2))[i]? = some 0)) := by
  constructor
  · intro hres hlen hp
    have hv : (resize m.tape (p * 2))[p]? = some 0 :=
      getElem?_resize_new _ _ _ hlen (by omega)
    refine ⟨?_, ?_, ?_, ?_⟩
    · unfold fetch_arg
      rw [hres, Option.some_bind, if_pos (by omega : p ≥ m.tape.length)]
      simp only [hv, Option.map_some']
    · rw [length_resize _ _ (by omega)]
      omega
    · intro i hi
      exact getElem?_resize_lt _ _ _ hi (by omega)
    · intro i hi1 hi2
      exact getElem?_resize_new _ _ _ hi1 (by omega)
  · intro hlen hd
    refine ⟨?_, ?_, ?_, ?_⟩
    · simp only [store]
      rw [if_pos (by omega : dest ≥ m.tape.length),
        if_pos (show dest < (resize m.tape (dest * 2)).length by
          rw [length_resize _ _ (by omega)]; omega)]
    · rw [length_resize _ _ (by omega)]
      omega
    · intro i hi
      exact getElem?_resize_lt _ _ _ hi (by omega)
    · intro i hi1 hi2
      exact getElem?_resize_new _ _ _ hi1 (by omega)

theorem c3_growth_policy_exact_witness :
    (new [0, 5]).fetch_arg ParameterMode.Positional =
      some (0, { new [0, 5] with position := 1, tape := resize [0, 5] (5 * 2) }) ∧
    (new [0, 5]).store 4 7 =
      some { new [0, 5] with tape := (resize [0, 5] (4 * 2)).set 4 7 } :=
  ⟨((c3_growth_policy_exact (new [0, 5]) ParameterMode.Positional 5 4 7).1
      (by decide) (by decide) (by decide)).1,
   ((c3_growth_policy_exact (new [0, 5]) ParameterMode.Positional 5 4 7).2
      (by decide) (by decide)).1⟩

/-- C4 counterexample: storing to address 0, which is at or beyond the
length of an empty tape, fails (the growth resizes the tape to
`2 * 0 = 0` elements and the write is out of bounds), contradicting the
claim for the non-negative address 0. -/
theorem c4_growth_counterexample :
    (new ([] : List Int)).store 0 5 = none := by
  decide

/-- C4 (amended): for every positive address at or beyond the current tape
length, storing does not fail and the value lands at that address, and
fetching does not fail and returns zero for the never-written cell; the
sole excluded case is address 0 on an empty tape, where the resize to
`2 * 0 = 0` leaves the access out of bounds. -/
theorem c4_growth_never_fails_positive (m : IntcodeMachine) (a : Nat)
    (v : Int) (mode : ParameterMode) (ha : 1 ≤ a)
    (hlen : m.tape.length ≤ a) :
    (∃ m', m.store a v = some m' ∧ m'.tape[a]? = some v) ∧
    (m.resolvePtr mode = some a →
      m.fetch_arg mode =
        some (0, { m with position := m.position + 1, tape := resize m.tape (a * 2) })) := by
  constructor
  · obtain ⟨t, hstore, hval, _, _⟩ := store_spec m a v (Or.inl ha)
    exact ⟨_, hstore, hval⟩
  · intro hres
    have hv : (resize m.tape (a * 2))[a]? = some 0 :=
      getElem?_resize_new _ _ _ hlen (by omega)
    unfold fetch_arg
    rw [hres, Option.some_bind, if_pos (by omega : a ≥ m.tape.length)]
    simp only [hv, Option.map_some']

theorem c4_growth_never_fails_positive_witness :
    (1 ≤ 5 ∧ (new [0, 5]).tape.length ≤ 5) ∧
    ((∃ m', (new [0, 5]).store 5 7 = some m' ∧ m'.tape[(5 : Nat)]? = some 7) ∧
     ((new [0, 5]).resolvePtr ParameterMode.Positional = some 5 →
       (new [0, 5]).fetch_arg ParameterMode.Positional =
         some (0, { new [0, 5] with position := 1, tape := resize [0, 5] (5 * 2) }))) :=
  ⟨⟨by decide, by decide⟩,
   c4_growth_never_fails_positive (new [0, 5]) 5 7 ParameterMode.Positional
     (by decide) (by decide)⟩

/-- C5: `Halted` is absorbing and `Yielded`/`Running` accept input: when the
status is Halt, `add_input` leaves the whole machine unchanged; when the
status is Yield or Run, it appends the value to the input queue and sets
the status to Run. -/
theorem c5_add_input_halt_absorbing (m : IntcodeMachine) (v : Int) :
    (m.status = MachineStatus.Halt → m.add_input v = m) ∧
    (m.status = MachineStatus.Yield ∨ m.status = MachineStatus.Run →
      m.add_input v =
        { m with status := MachineStatus.Run, input := m.input ++ [v] }) := by
  constructor
  · intro h
    simp [add_input, h]
  · intro h
    rcases h with h | h <;> simp [add_input, h]

theorem c5_add_input_halt_absorbing_witness :
    add_input ⟨[99], 0, 0, [], [], MachineStatus.Halt⟩ 5 =
      ⟨[99], 0, 0, [], [], MachineStatus.Halt⟩ ∧
    add_input ⟨[3, 0], 0, 0, [7], [], MachineStatus.Yield⟩ 5 =
      ⟨[3, 0], 0, 0, [7, 5], [], MachineStatus.Run⟩ :=
  ⟨(c5_add_input_halt_absorbing ⟨[99], 0, 0, [], [], MachineStatus.Halt⟩ 5).1
      rfl,
   (c5_add_input_halt_absorbing
      ⟨[3, 0], 0, 0, [7], [], MachineStatus.Yield⟩ 5).2 (Or.inl rfl)⟩

/-- C7: the opcode of an instruction word is its value modulo 100; the
hundreds, thousands and ten-thousands decimal digits independently select
the addressing modes of parameters 1, 2 and 3; digit 0 decodes to
Positional, 1 to Immediate, 2 to Relative, and every other digit value
decodes to Positional rather than failing. -/
theorem c7_mode_decoding (m : IntcodeMachine) (n : Nat)
    (hw : m.tape[m.position]? = some (n : Int)) :
    ((n : Int).tmod 100) = ((n % 100 : Nat) : Int) ∧
    m.fetch3modes = some (parse_mode ((n / 10000 % 10 : Nat) : Int),
                          parse_mode ((n / 1000 % 10 : Nat) : Int),
                          parse_mode ((n / 100 % 10 : Nat) : Int)) ∧
    parse_mode 0 = ParameterMode.Positional ∧
    parse_mode 1 = ParameterMode.Immediate ∧
    parse_mode 2 = ParameterMode.Relative ∧
    (∀ d : Int, d ≠ 1 → d ≠ 2 → parse_mode d = ParameterMode.Positional) := by
  refine ⟨rfl, ?_, rfl, rfl, rfl, ?_⟩
  · simp only [fetch3modes, fetch2modes, fetch1mode, hw, Option.map_some']
    rfl
  · intro d h1 h2
    simp [parse_mode, h1, h2]

theorem c7_mode_decoding_witness :
    (new [21108]).tape[(new [21108]).position]? = some ((21108 : Nat) : Int) ∧
    ((((21108 : Nat) : Int).tmod 100) = (((21108 : Nat) % 100 : Nat) : Int) ∧
     (new [21108]).fetch3modes =
        some (parse_mode ((21108 / 10000 % 10 : Nat) : Int),
              parse_mode ((21108 / 1000 % 10 : Nat) : Int),
              parse_mode ((21108 / 100 % 10 : Nat) : Int)) ∧
     parse_mode 0 = ParameterMode.Positional ∧
     parse_mode 1 = ParameterMode.Immediate ∧
     parse_mode 2 = ParameterMode.Relative ∧
     (∀ d : Int, d ≠ 1 → d ≠ 2 → parse_mode d = ParameterMode.Positional)) :=
  ⟨rfl, c7_mode_decoding (new [21108]) 21108 rfl⟩

/-- C8: an instruction word whose opcode (value `tmod 100`) is outside
`{1, 2, 3, 4, 5, 6, 7, 8, 9, 99}` makes the run loop abort immediately:
the dispatch is the Rust `panic!`, modelled as `none`, not a `Yielded` or
`Halted` result. -/
theorem c8_unknown_opcode_panics (m : IntcodeMachine) (w : Int)
    (hw : m.tape[m.position]? = some w)
    (h : w.tmod 100 ∉ ([1, 2, 3, 4, 5, 6, 7, 8, 9, 99] : List Int)) :
    runStep m = none ∧
    (∀ fuel, runLoop (fuel + 1) m = none) ∧
    (∀ fuel target, run_for_target (fuel + 1) m target = none) := by
  simp only [List.mem_cons, List.not_mem_nil, or_false, not_or] at h
  obtain ⟨h1, h2, h3, h4, h5, h6, h7, h8, h9, h99⟩ := h
  have hstep : runStep m = none := by
    simp [runStep, hw, h1, h2, h3, h4, h5, h6, h7, h8, h9, h99]
  refine ⟨hstep, fun fuel => by simp [runLoop, hstep], fun fuel target => ?_⟩
  have hw' : ({ m with status := MachineStatus.Run, output := [] } : IntcodeMachine).tape[({ m with status := MachineStatus.Run, output := [] } : IntcodeMachine).position]? = some w := hw
  have hstep' : runStep { m with status := MachineStatus.Run, output := [] } = none := by
    simp [runStep, hw', h1, h2, h3, h4, h5, h6, h7, h8, h9, h99]
  simp [run_for_target, runLoop, hstep']

theorem c8_unknown_opcode_panics_witness :
    (new [42]).tape[(new [42]).position]? = some 42 ∧
    (42 : Int).tmod 100 ∉ ([1, 2, 3, 4, 5, 6, 7, 8, 9, 99] : List Int) ∧
    (runStep (new [42]) = none ∧
     (∀ fuel, runLoop (fuel + 1) (new [42]) = none) ∧
     (∀ fuel target, run_for_target (fuel + 1) (new [42]) target = none)) :=
  ⟨rfl, by decide, c8_unknown_opcode_panics (new [42]) 42 rfl (by decide)⟩

/-- C9: the documented example programs run to completion with exactly the
documented results: `[1,0,0,0,99]` halts with cell 0 = 2; `[2,3,0,3,99]`
halts with cell 3 = 6; `[1002,4,3,4,33]` halts with cell 4 = 99;
`[1102,34915192,34915192,7,4,7,99,0]` halts with output
`[1219070632396864]`; `[104,1125899906842624,99]` halts with output
`[1125899906842624]`, with no truncation of 64-bit values. -/
theorem c9_documented_examples :
    ((run_for_target 100 (new [1, 0, 0, 0, 99]) 0).map fun p =>
        (p.1, p.2.status)) = some (2, MachineStatus.Halt) ∧
    ((run_for_target 100 (new [2, 3, 0, 3, 99]) 3).map fun p =>
        (p.1, p.2.status)) = some (6, MachineStatus.Halt) ∧
    ((run_for_target 100 (new [1002, 4, 3, 4, 33]) 4).map fun p =>
        (p.1, p.2.status)) = some (99, MachineStatus.Halt) ∧
    ((run 100 (new [1102, 34915192, 34915192, 7, 4, 7, 99, 0])).map fun p =>
        (p.1, p.2.status)) = some ([1219070632396864], MachineStatus.Halt) ∧
    ((run 100 (new [104, 1125899906842624, 99])).map fun p =>
        (p.1, p.2.status)) = some ([1125899906842624], MachineStatus.Halt) := by
  decide

/-- C10: `with_zeroth` and `with_init` write directly into the initial
memory image without triggering tape growth: `with_zeroth` requires at
least 1 tape element and `with_init` at least 3; on a shorter tape the
write is out of bounds and fails instead of growing the tape. -/
theorem c10_with_init_no_growth (m : IntcodeMachine) (value noun verb : Int) :
    (1 ≤ m.tape.length →
      m.with_zeroth value = some { m with tape := m.tape.set 0 value }) ∧
    (m.tape.length = 0 → m.with_zeroth value = none) ∧
    (3 ≤ m.tape.length →
      m.with_init noun verb =
        some { m with tape := (m.tape.set 1 noun).set 2 verb }) ∧
    (m.tape.length < 3 → m.with_init noun verb = none) ∧
    (∀ m', m.with_zeroth value = some m' → m'.tape.length = m.tape.length) ∧
    (∀ m', m.with_init noun verb = some m' →
      m'.tape.length = m.tape.length) := by
  refine ⟨?_, ?_, ?_, ?_, ?_, ?_⟩
  · intro h
    rw [with_zeroth, if_pos (by omega)]
  · intro h
    rw [with_zeroth, if_neg (by omega)]
  · intro h
    rw [with_init, if_pos (by omega)]
    simp only [List.length_set]
    rw [if_pos (by omega)]
  · intro h
    rw [with_init]
    by_cases h1 : 1 < m.tape.length
    · rw [if_pos h1]
      simp only [List.length_set]
      rw [if_neg (by omega)]
    · rw [if_neg h1]
  · intro m' h
    rw [with_zeroth] at h
    by_cases h1 : 0 < m.tape.length
    · rw [if_pos h1] at h
      cases h
      simp
    · rw [if_neg h1] at h
      cases h
  · intro m' h
    rw [with_init] at h
    by_cases h1 : 1 < m.tape.length
    · rw [if_pos h1] at h
      simp only [List.length_set] at h
      by_cases h2 : 2 < m.tape.length
      · rw [if_pos h2] at h
        cases h
        simp
      · rw [if_neg h2] at h
        cases h
    · rw [if_neg h1] at h
      cases h

theorem c10_with_init_no_growth_witness :
    (1 ≤ (new [7, 8, 9]).tape.length ∧
      (new [7, 8, 9]).with_zeroth 1 =
        some { new [7, 8, 9] with tape := ([7, 8, 9] : List Int).set 0 1 }) ∧
    ((new ([] : List Int)).tape.length = 0 ∧
      (new ([] : List Int)).with_zeroth 1 = none) ∧
    (3 ≤ (new [7, 8, 9]).tape.length ∧
      (new [7, 8, 9]).with_init 4 5 =
        some { new [7, 8, 9] with
                tape := (([7, 8, 9] : List Int).set 1 4).set 2 5 }) ∧
    ((new [7, 8]).tape.length < 3 ∧ (new [7, 8]).with_init 4 5 = none) :=
  ⟨⟨by decide, (c10_with_init_no_growth (new [7, 8, 9]) 1 4 5).1 (by decide)⟩,
   ⟨rfl, (c10_with_init_no_growth (new ([] : List Int)) 1 4 5).2.1 rfl⟩,
   ⟨by decide, (c10_with_init_no_growth (new [7, 8, 9]) 1 4 5).2.2.1
      (by decide)⟩,
   ⟨by decide, (c10_with_init_no_growth (new [7, 8]) 1 4 5).2.2.2.1
      (by decide)⟩⟩

/-- C6: invoking run on a machine that has already reached status Halted
is a no-op up to the output reset: the output buffer is cleared at the
start of the invocation and nothing is appended, no memory cell is
mutated, and the invocation ends with status Halted again.  (A machine
that reached Halted through a run has its pointer still addressing the 99
word, so the re-entered loop immediately executes halt again.) -/
theorem c6_rerun_halted_noop (fuel fuel2 : Nat) (m m' : IntcodeMachine)
    (out : List Int) (h : run fuel m = some (out, m'))
    (hh : m'.status = MachineStatus.Halt) :
    run (fuel2 + 1) m' = some ([], { m' with output := [] }) := by
  unfold run at h
  obtain ⟨p, hp, hpe⟩ := Option.map_eq_some'.mp h
  unfold run_for_target at hp
  obtain ⟨m1, hloop, hmap⟩ := Option.bind_eq_some.mp hp
  obtain ⟨v1, hv1, hpeq⟩ := Option.map_eq_some'.mp hmap
  subst hpeq
  obtain ⟨hout, hm1⟩ := Prod.mk.injEq .. |>.mp hpe
  subst hm1
  obtain ⟨w, hw, h99⟩ := runLoop_halt_inv fuel _ _ rfl hloop hh
  obtain ⟨hposlt, -⟩ := List.getElem?_eq_some.mp hw
  obtain ⟨t, pos, rb, inp, outp, s⟩ := m1
  simp only at hh
  subst hh
  simp only at hw hposlt
  have hstep : runStep ⟨t, pos, rb, inp, [], MachineStatus.Run⟩ =
      some (halt ⟨t, pos, rb, inp, [], MachineStatus.Run⟩) := by
    simp +decide [runStep, hw, h99]
  have hloop2 : runLoop (fuel2 + 1) ⟨t, pos, rb, inp, [], MachineStatus.Run⟩ =
      some ⟨t, pos, rb, inp, [], MachineStatus.Halt⟩ := by
    rw [runLoop, hstep]
    simp [halt]
  obtain ⟨v0, hv0⟩ : ∃ v0, t[0]? = some v0 :=
    ⟨_, List.getElem?_eq_getElem (by omega)⟩
  simp [run, run_for_target, hloop2, hv0]

theorem c6_rerun_halted_noop_witness :
    run 100 (new [1, 0, 0, 0, 99]) =
      some ([], ⟨[2, 0, 0, 0, 99], 4, 0, [], [], MachineStatus.Halt⟩) ∧
    run (0 + 1) (⟨[2, 0, 0, 0, 99], 4, 0, [], [], MachineStatus.Halt⟩ : IntcodeMachine) =
      some ([], { (⟨[2, 0, 0, 0, 99], 4, 0, [], [], MachineStatus.Halt⟩ : IntcodeMachine) with output := [] }) :=
  ⟨by decide,
   c6_rerun_halted_noop 100 0 (new [1, 0, 0, 0, 99])
     ⟨[2, 0, 0, 0, 99], 4, 0, [], [], MachineStatus.Halt⟩ [] (by decide) rfl⟩
